import Mathlib

/-!
Shallow embedding of the minesweeper-solver repository core:
the grid model (grid module), the constraint solver and probability
estimator (`src/solver.js`), and the no-progress bookkeeping of the main
game loop (`src/main.js`, `MinesweeperBot.run`).

Cell states are the string tags used by the code; `value` is the optional
number attached to a revealed cell.  Probabilities and confidences are
modelled as rationals.  `Math.random`-driven choices are modelled by an
explicit `rand : Nat` parameter selecting an index into the candidate
list.
-/

attribute [local semireducible] Rat.add Rat.sub Rat.mul Rat.inv

namespace Minesweeper

/-- The string state tags used by the grid module:
`'unknown' | 'covered' | 'revealed' | 'flag' | 'mine'`. -/
inductive CellState where
  | unknown
  | covered
  | revealed
  | flag
  | mine
deriving DecidableEq, Repr

/-- One grid cell: `{state, value}` (the precomputed `neighbors` field is
recomputed from the geometry instead of being stored). -/
structure Cell where
  state : CellState
  value : Option Nat
deriving DecidableEq, Repr

/-- The grid module's state: `gridInfo.rows/cols` plus the row-major
`cells` matrix. -/
structure Grid where
  rows : Nat
  cols : Nat
  cells : List (List Cell)
deriving DecidableEq, Repr

/-- Well-formedness: the `cells` matrix actually has `gridInfo.rows` rows of
`gridInfo.cols` cells each (what `initializeGrid` establishes). -/
def Grid.WF (g : Grid) : Prop :=
  g.cells.length = g.rows ∧ ∀ row ∈ g.cells, row.length = g.cols

instance (g : Grid) : Decidable g.WF := by
  unfold Grid.WF
  infer_instance

/-- `getCell(row, col)`: returns the cell object, or `null` when
`cells[row]` or `cells[row][col]` is absent (negative or too-large index). -/
def getCell (g : Grid) (row col : Int) : Option Cell :=
  if row < 0 ∨ col < 0 then none
  else (g.cells[row.toNat]?).bind fun r => r[col.toNat]?

/-- `getCell` at natural-number coordinates (how the solver loops call it). -/
def getCellN (g : Grid) (row col : Nat) : Option Cell :=
  (g.cells[row]?).bind fun r => r[col]?

/-- The eight `(dr, dc)` offsets enumerated by `getNeighborIndices`
(`dr` from -1 to 1, `dc` from -1 to 1, skipping `(0,0)`). -/
def neighborOffsets : List (Int × Int) :=
  [(-1, -1), (-1, 0), (-1, 1), (0, -1), (0, 1), (1, -1), (1, 0), (1, 1)]

/-- `getNeighborIndices(row, col)`: the in-bounds neighbor coordinates of a
cell, in offset order. -/
def getNeighborIndices (g : Grid) (row col : Nat) : List (Nat × Nat) :=
  neighborOffsets.filterMap fun d =>
    let nr : Int := (row : Int) + d.1
    let nc : Int := (col : Int) + d.2
    if 0 ≤ nr ∧ nr < (g.rows : Int) ∧ 0 ≤ nc ∧ nc < (g.cols : Int) then
      some (nr.toNat, nc.toNat)
    else none

/-- An entry of `getNeighbors`: `{row, col, cell}`. -/
structure NeighborRef where
  row : Nat
  col : Nat
  cell : Cell
deriving DecidableEq, Repr

/-- `getNeighbors(row, col)`: `[]` when the cell itself is absent, else the
neighbor entries whose cells exist. -/
def getNeighbors (g : Grid) (row col : Nat) : List NeighborRef :=
  match getCellN g row col with
  | none => []
  | some _ =>
    (getNeighborIndices g row col).filterMap fun p =>
      (getCellN g p.1 p.2).map fun cell => ⟨p.1, p.2, cell⟩

/-- A move's action: `'reveal'` or `'flag'`. -/
inductive MoveAction where
  | reveal
  | flag
deriving DecidableEq, Repr

/-- A proposed move `{row, col, action, confidence, reason}`. -/
structure Move where
  row : Nat
  col : Nat
  action : MoveAction
  confidence : ℚ
  reason : String
deriving DecidableEq, Repr

/-- The deduplication key `"row,col"`, modelled as the coordinate pair. -/
def Move.key (m : Move) : Nat × Nat :=
  (m.row, m.col)

/-- The `covered`-state neighbors of a cell (solver's `coveredNeighbors`). -/
def coveredNeighbors (g : Grid) (row col : Nat) : List NeighborRef :=
  (getNeighbors g row col).filter fun n => decide (n.cell.state = CellState.covered)

/-- The `flag`-state neighbors of a cell (solver's `flaggedNeighbors`). -/
def flaggedNeighbors (g : Grid) (row col : Nat) : List NeighborRef :=
  (getNeighbors g row col).filter fun n => decide (n.cell.state = CellState.flag)

/-- The Reveal moves Rule 1 pushes for one satisfied source cell. -/
def ruleAMoves (g : Grid) (row col mineCount : Nat) : List Move :=
  (coveredNeighbors g row col).map fun n =>
    ⟨n.row, n.col, MoveAction.reveal, 1,
      s!"All {mineCount} mines flagged around ({row},{col})"⟩

/-- The Flag moves Rule 2 pushes for one saturated source cell. -/
def ruleBMoves (g : Grid) (row col mineCount flaggedCount coveredCount : Nat) : List Move :=
  (coveredNeighbors g row col).map fun n =>
    ⟨n.row, n.col, MoveAction.flag, 1,
      s!"{coveredCount} covered = {mineCount - flaggedCount} remaining mines at ({row},{col})"⟩

/-- The loop body of `findSafeMoves` at one `(row, col)`: skip cells that are
not revealed numbers, else push Rule 1 moves then Rule 2 moves. -/
def analyzeCell (g : Grid) (row col : Nat) : List Move :=
  match getCellN g row col with
  | none => []
  | some cell =>
    if cell.state ≠ CellState.revealed ∨ cell.value = some 0 ∨ cell.value = none then []
    else
      (if (flaggedNeighbors g row col).length = cell.value.getD 0 ∧
          0 < (coveredNeighbors g row col).length then
        ruleAMoves g row col (cell.value.getD 0)
      else []) ++
      (if (coveredNeighbors g row col).length + (flaggedNeighbors g row col).length =
            cell.value.getD 0 ∧ 0 < (coveredNeighbors g row col).length then
        ruleBMoves g row col (cell.value.getD 0) (flaggedNeighbors g row col).length
          (coveredNeighbors g row col).length
      else [])

/-- Row-major scan order over the grid positions. -/
def positions (g : Grid) : List (Nat × Nat) :=
  (List.range g.rows).flatMap fun r => (List.range g.cols).map fun c => (r, c)

/-- The `moves` array of `findSafeMoves` before deduplication. -/
def findSafeMovesRaw (g : Grid) : List Move :=
  (positions g).flatMap fun p => analyzeCell g p.1 p.2

/-- One step of the `Map`-based deduplication: update the first entry with
the same key when the new move's confidence is strictly higher, keep it
otherwise, and append the move when its key is new. -/
def updateKey : List Move → Move → List Move
  | [], m => [m]
  | x :: xs, m =>
    if x.key = m.key then
      (if x.confidence < m.confidence then m else x) :: xs
    else
      x :: updateKey xs m

/-- `deduplicateMoves(moves)`: insert every move into the key map in order
and read the values back in first-insertion order. -/
def deduplicateMoves (moves : List Move) : List Move :=
  moves.foldl updateKey []

/-- `findSafeMoves()`: the raw rule moves, deduplicated (empty grid data
short-circuits to `[]`). -/
def findSafeMoves (g : Grid) : List Move :=
  if g.cells.isEmpty then []
  else deduplicateMoves (findSafeMovesRaw g)

/-- `Math.max(a, b)`. -/
def jsMax (a b : ℚ) : ℚ :=
  if a ≤ b then b else a

/-- `Math.min(a, b)`. -/
def jsMin (a b : ℚ) : ℚ :=
  if a ≤ b then a else b

/-- An entry of `calculateProbabilities`: `{row, col, mineProbability}`. -/
structure ProbEntry where
  row : Nat
  col : Nat
  mineProbability : ℚ
deriving DecidableEq, Repr

/-- The `revealedNeighbors` filter of `calculateProbabilities`: neighbors
that are revealed with `value > 0` (a `null` value compares as not `> 0`). -/
def revealedNumberedNeighbors (g : Grid) (row col : Nat) : List NeighborRef :=
  (getNeighbors g row col).filter fun n =>
    decide (n.cell.state = CellState.revealed) && decide (0 < n.cell.value.getD 0)

/-- The `totalProbability` accumulation of `calculateProbabilities`: fold the
local densities `remainingMines / coveredCount` of the qualifying revealed
neighbors, skipping any with no covered neighbor. -/
def localDensityTotal (g : Grid) (row col : Nat) : ℚ :=
  (revealedNumberedNeighbors g row col).foldl (fun acc n =>
    if 0 < (coveredNeighbors g n.row n.col).length then
      acc + ((n.cell.value.getD 0 : ℚ) - ((flaggedNeighbors g n.row n.col).length : ℚ)) /
        ((coveredNeighbors g n.row n.col).length : ℚ)
    else acc) 0

/-- The loop body of `calculateProbabilities` at one `(row, col)`: no entry
unless the cell is covered; the 0.15 default prior when it has no revealed
numbered neighbor; otherwise the clamped average of guarded local
densities. -/
def probAt (g : Grid) (row col : Nat) : List ProbEntry :=
  match getCellN g row col with
  | none => []
  | some cell =>
    if cell.state ≠ CellState.covered then []
    else if (revealedNumberedNeighbors g row col).isEmpty then [⟨row, col, 15 / 100⟩]
    else
      [⟨row, col, jsMin 1 (jsMax 0 (localDensityTotal g row col /
        ((revealedNumberedNeighbors g row col).length : ℚ)))⟩]

/-- `calculateProbabilities()`: the per-cell entries in row-major order. -/
def calculateProbabilities (g : Grid) : List ProbEntry :=
  (positions g).flatMap fun p => probAt g p.1 p.2

/-- The covered-cell coordinate list collected by `findRandomCovered`. -/
def coveredPositions (g : Grid) : List (Nat × Nat) :=
  (positions g).filter fun p =>
    match getCellN g p.1 p.2 with
    | some cell => decide (cell.state = CellState.covered)
    | none => false

/-- `findRandomCovered()`: `null` when no covered cell exists, else the
covered cell at the random index, as a Reveal move with confidence 0.5. -/
def findRandomCovered (g : Grid) (rand : Nat) : Option Move :=
  let covered := coveredPositions g
  match covered[rand % covered.length]? with
  | none => none
  | some p => some ⟨p.1, p.2, MoveAction.reveal, 1 / 2, "Random guess"⟩

/-- The configuration options the solver and loop consume
(`config.solver.*`, `config.scroll.*`). -/
structure Config where
  useAdvancedLogic : Bool
  safeProbability : ℚ
  flagObviousMines : Bool
  scrollEnabled : Bool
  whenToScroll : ℚ
deriving DecidableEq, Repr

/-- The shipped defaults in `config.js`. -/
def defaultConfig : Config :=
  ⟨true, 8 / 10, true, true, 7 / 10⟩

/-- The comparator order of `probabilities.sort((a, b) => a.mineProbability
- b.mineProbability)`. -/
def probLE (a b : ProbEntry) : Prop :=
  a.mineProbability ≤ b.mineProbability

instance : DecidableRel probLE := fun a b =>
  inferInstanceAs (Decidable (a.mineProbability ≤ b.mineProbability))

/-- `findBestGuess()`: random fallback when advanced logic is off or the
probability list is empty; otherwise the safest entry of the sorted list if
it is within tolerance, else `null`.  JS `Array.prototype.sort` is a stable
sort, so it is modelled by the stable `List.insertionSort`. -/
def findBestGuess (cfg : Config) (g : Grid) (rand : Nat) : Option Move :=
  if cfg.useAdvancedLogic = false then findRandomCovered g rand
  else
    let probabilities := calculateProbabilities g
    if probabilities.isEmpty then findRandomCovered g rand
    else
      let sorted := probabilities.insertionSort probLE
      match sorted.head? with
      | none => none
      | some best =>
        if best.mineProbability ≤ 1 - cfg.safeProbability then
          some ⟨best.row, best.col, MoveAction.reveal, 1 - best.mineProbability,
            "Probability-based guess"⟩
        else none

/-- `getNextMove()`: a safe move when one exists (flags first under the
`flagObviousMines` policy, else reveals first), otherwise the best guess. -/
def getNextMove (cfg : Config) (g : Grid) (rand : Nat) : Option Move :=
  let safeMoves := findSafeMoves g
  if 0 < safeMoves.length then
    let reveals := safeMoves.filter fun m => decide (m.action = MoveAction.reveal)
    let flags := safeMoves.filter fun m => decide (m.action = MoveAction.flag)
    if cfg.flagObviousMines ∧ 0 < flags.length then flags.head?
    else if 0 < reveals.length then reveals.head?
    else safeMoves.head?
  else findBestGuess cfg g rand

/-- `isSolved()`: true iff no in-range cell is in `covered` state. -/
def isSolved (g : Grid) : Bool :=
  (List.range g.rows).all fun r => (List.range g.cols).all fun c =>
    match getCellN g r c with
    | some cell => decide (cell.state ≠ CellState.covered)
    | none => true

/-- The counters of `getStats()`. -/
structure GridStats where
  total : Nat
  covered : Nat
  revealed : Nat
  flags : Nat
  unknown : Nat
deriving DecidableEq, Repr

/-- `getStats()`: bucket counts over all stored cells (`unknown` absorbs
every state outside covered/revealed/flag). -/
def getStats (g : Grid) : GridStats :=
  let all := g.cells.flatten
  { total := all.length
    covered := (all.filter fun c => decide (c.state = CellState.covered)).length
    revealed := (all.filter fun c => decide (c.state = CellState.revealed)).length
    flags := (all.filter fun c => decide (c.state = CellState.flag)).length
    unknown := (all.filter fun c =>
      decide (c.state ≠ CellState.covered ∧ c.state ≠ CellState.revealed ∧
        c.state ≠ CellState.flag)).length }

/-- A per-cell observation, as produced by `vision.detectCellState`: a
number 0-8 for a revealed cell, or one of the string states
`'covered' | 'flag' | 'mine'`. -/
inductive Obs where
  | num (n : Nat)
  | covered
  | flag
  | mine
deriving DecidableEq, Repr

/-- The per-cell update of `scanGrid`: a numeric observation becomes a
revealed cell carrying that number; a string observation becomes that state
with `value = null`. -/
def applyObs (o : Obs) : Cell :=
  match o with
  | Obs.num n => ⟨CellState.revealed, some n⟩
  | Obs.covered => ⟨CellState.covered, none⟩
  | Obs.flag => ⟨CellState.flag, none⟩
  | Obs.mine => ⟨CellState.mine, none⟩

/-- `initializeGrid`: rows×cols cells, all `{state: 'unknown', value: null}`. -/
def initializeGrid (rows cols : Nat) : Grid :=
  ⟨rows, cols,
    (List.range rows).map fun _ => (List.range cols).map fun _ =>
      ⟨CellState.unknown, none⟩⟩

/-- `scanGrid`: overwrite every in-range cell's `state`/`value` from the
observation at its coordinates (on a well-formed grid this in-place update
rebuilds the whole matrix). -/
def scanGrid (obs : Nat → Nat → Obs) (g : Grid) : Grid :=
  { g with cells :=
      (List.range g.rows).map fun r => (List.range g.cols).map fun c =>
        applyObs (obs r c) }

/-- The loop bookkeeping of `MinesweeperBot.run`. -/
structure LoopState where
  iterationsWithoutProgress : Nat
  lastRevealedCount : Nat
deriving DecidableEq, Repr

/-- What one iteration of the main loop does after scanning, as seen from
the outside: scroll for stuck-recovery, scroll because no move was found,
stop, or execute a move (with or without a coverage-triggered scroll). -/
inductive StepOutcome where
  | recoverScroll (s : LoopState)
  | noMoveScroll (s : LoopState)
  | stopSolved
  | stopStuck
  | acted (m : Move) (postScroll : Bool) (s : LoopState)
deriving DecidableEq, Repr

/-- One iteration of the `while` loop in `MinesweeperBot.run` (`src/main.js`
lines 134-187 plus the coverage-ratio scroll check), with the scan result
already applied to `g`: update the no-progress counter from the revealed
count; when the counter passed 5 and scrolling is enabled, scroll and reset
it; otherwise ask the solver for a move, and on `null` either scroll (when
enabled) or stop — solved when `isSolved`, stuck otherwise. The hardcoded
threshold is `iterationsWithoutProgress > 5`. -/
def runStep (cfg : Config) (g : Grid) (rand : Nat) (s : LoopState) : StepOutcome :=
  let revealed := (getStats g).revealed
  let iters := if revealed = s.lastRevealedCount then s.iterationsWithoutProgress + 1 else 0
  let last := if revealed = s.lastRevealedCount then s.lastRevealedCount else revealed
  if 5 < iters ∧ cfg.scrollEnabled = true then
    StepOutcome.recoverScroll ⟨0, last⟩
  else
    match getNextMove cfg g rand with
    | none =>
      if isSolved g = true then
        if cfg.scrollEnabled = true then StepOutcome.noMoveScroll ⟨iters, last⟩
        else StepOutcome.stopSolved
      else if cfg.scrollEnabled = true then StepOutcome.noMoveScroll ⟨iters, last⟩
      else StepOutcome.stopStuck
    | some m =>
      let total := (getStats g).total
      let postScroll := cfg.scrollEnabled = true ∧ 0 < total ∧
        cfg.whenToScroll ≤ (revealed : ℚ) / (total : ℚ)
      StepOutcome.acted m (decide postScroll) ⟨iters, last⟩

/-- Modelled from the spec: the local mine density the estimator section
ascribes to one revealed numbered neighbor `n`,
`(n.value − flaggedNeighborsOf(n)) / coveredNeighborsOf(n)`. -/
def specLocalDensity (g : Grid) (n : NeighborRef) : ℚ :=
  ((n.cell.value.getD 0 : ℚ) - ((flaggedNeighbors g n.row n.col).length : ℚ)) /
    ((coveredNeighbors g n.row n.col).length : ℚ)

/-- Modelled from the spec: the unguarded average of the local densities
over all qualifying revealed neighbors of a covered cell. -/
def specAverageDensity (g : Grid) (row col : Nat) : ℚ :=
  let qualifying := revealedNumberedNeighbors g row col
  ((qualifying.map (specLocalDensity g)).sum) / (qualifying.length : ℚ)

/-- The `Map` lookup of `deduplicateMoves`, on the association-list model:
the first entry with the given key. -/
def findByKey (k : Nat × Nat) (l : List Move) : Option Move :=
  l.find? fun m => decide (m.key = k)

/-- The value kept for a key after one more insertion with an equal key:
replace only on strictly higher confidence. -/
def pick (b : Option Move) (m : Move) : Move :=
  match b with
  | none => m
  | some b => if b.confidence < m.confidence then m else b

/-- `pick`, wrapped for folding over a key's occurrence list. -/
def pickO (b : Option Move) (m : Move) : Option Move :=
  some (pick b m)

/-- A covered cell, for concrete test grids. -/
def coveredCell : Cell :=
  ⟨CellState.covered, none⟩

/-- A revealed cell with the given number, for concrete test grids. -/
def revealedCell (n : Nat) : Cell :=
  ⟨CellState.revealed, some n⟩

/-- A flagged cell, for concrete test grids. -/
def flagCell : Cell :=
  ⟨CellState.flag, none⟩

/-- 1×2 test grid: a revealed "1" next to a single covered cell. -/
def demoPairGrid : Grid :=
  ⟨1, 2, [[revealedCell 1, coveredCell]]⟩

/-- 1×3 test grid: two covered cells around a revealed "1" — no safe move
exists and every covered cell has estimated mine probability 1/2. -/
def demoTripleGrid : Grid :=
  ⟨1, 3, [[coveredCell, revealedCell 1, coveredCell]]⟩

/-- 3×3 test grid for Rule A: the center is a revealed "2" with exactly two
flagged neighbors and three covered neighbors. -/
def demoRuleAGrid : Grid :=
  ⟨3, 3, [[flagCell, flagCell, coveredCell],
          [coveredCell, revealedCell 2, coveredCell],
          [revealedCell 0, revealedCell 0, revealedCell 0]]⟩

/-- 3×3 test grid for Rule B: the center is a revealed "3" with one flagged
neighbor and two covered neighbors. -/
def demoRuleBGrid : Grid :=
  ⟨3, 3, [[flagCell, coveredCell, coveredCell],
          [revealedCell 0, revealedCell 3, revealedCell 0],
          [revealedCell 0, revealedCell 0, revealedCell 0]]⟩

/-- The shipped configuration with scrolling turned off. -/
def noScrollConfig : Config :=
  { defaultConfig with scrollEnabled := false }

/-- A move list with two key collisions, for exercising deduplication. -/
def demoMoves : List Move :=
  [⟨0, 0, MoveAction.reveal, 1, "a"⟩, ⟨0, 0, MoveAction.flag, 1, "b"⟩,
   ⟨0, 1, MoveAction.reveal, 1 / 2, "c"⟩, ⟨0, 1, MoveAction.reveal, 3 / 4, "d"⟩]

lemma getCellN_lt_of_WF {g : Grid} (hw : g.WF) {row col : Nat} {cell : Cell}
    (h : getCellN g row col = some cell) : row < g.rows ∧ col < g.cols := by
  unfold getCellN at h
  rw [Option.bind_eq_some] at h
  obtain ⟨r, hrow, hcell⟩ := h
  have hr : row < g.cells.length := by
    by_contra hnot
    push_neg at hnot
    rw [List.getElem?_eq_none hnot] at hrow
    cases hrow
  have hmem : r ∈ g.cells := List.getElem?_mem hrow
  have hc : col < r.length := by
    by_contra hnot
    push_neg at hnot
    rw [List.getElem?_eq_none hnot] at hcell
    cases hcell
  exact ⟨hw.1 ▸ hr, hw.2 r hmem ▸ hc⟩

lemma mem_getNeighborIndices_iff {g : Grid} {row col r c : Nat} :
    (r, c) ∈ getNeighborIndices g row col ↔
      r < g.rows ∧ c < g.cols ∧ ¬(r = row ∧ c = col) ∧
      r ≤ row + 1 ∧ row ≤ r + 1 ∧ c ≤ col + 1 ∧ col ≤ c + 1 := by
  unfold getNeighborIndices neighborOffsets
  simp only [List.mem_filterMap, List.mem_cons, List.not_mem_nil, or_false]
  constructor
  · rintro ⟨d, hd, hf⟩
    rcases hd with rfl | rfl | rfl | rfl | rfl | rfl | rfl | rfl <;>
      · simp only [] at hf
        split at hf
        · simp only [Option.some.injEq, Prod.mk.injEq] at hf
          omega
        · cases hf
  · rintro ⟨h1, h2, h3, h4, h5, h6, h7⟩
    refine ⟨((r : Int) - (row : Int), (c : Int) - (col : Int)), ?_, ?_⟩
    · simp only [Prod.mk.injEq]
      omega
    · rw [if_pos (by omega)]
      simp only [Option.some.injEq, Prod.mk.injEq]
      omega

lemma of_mem_getNeighbors {g : Grid} {row col : Nat} {n : NeighborRef}
    (h : n ∈ getNeighbors g row col) :
    (n.row, n.col) ∈ getNeighborIndices g row col ∧ getCellN g n.row n.col = some n.cell := by
  unfold getNeighbors at h
  rcases hc : getCellN g row col with _ | cell
  · rw [hc] at h
    cases h
  · rw [hc] at h
    simp only [List.mem_filterMap, Option.map_eq_some'] at h
    obtain ⟨p, hp, x, hx, rfl⟩ := h
    exact ⟨hp, hx⟩

lemma mem_getNeighbors_intro {g : Grid} {row col r c : Nat} {x y : Cell}
    (hy : getCellN g row col = some y)
    (hi : (r, c) ∈ getNeighborIndices g row col)
    (hx : getCellN g r c = some x) :
    (⟨r, c, x⟩ : NeighborRef) ∈ getNeighbors g row col := by
  unfold getNeighbors
  rw [hy]
  simp only [List.mem_filterMap, Option.map_eq_some']
  exact ⟨(r, c), hi, x, hx, rfl⟩

lemma length_getNeighborIndices_le (g : Grid) (row col : Nat) :
    (getNeighborIndices g row col).length ≤ 8 :=
  le_trans (List.length_filterMap_le _ _) (by rfl)

lemma length_getNeighbors_le (g : Grid) (row col : Nat) :
    (getNeighbors g row col).length ≤ 8 := by
  unfold getNeighbors
  rcases getCellN g row col with _ | cell
  · simp
  · exact le_trans (List.length_filterMap_le _ _) (length_getNeighborIndices_le g row col)

lemma mem_positions_iff {g : Grid} {r c : Nat} :
    (r, c) ∈ positions g ↔ r < g.rows ∧ c < g.cols := by
  unfold positions
  simp [List.mem_range, Prod.ext_iff]

lemma findByKey_cons_of_key {x : Move} {k : Nat × Nat} (h : x.key = k) (l : List Move) :
    findByKey k (x :: l) = some x :=
  List.find?_cons_of_pos l (by simp [h])

lemma findByKey_cons_of_ne {x : Move} {k : Nat × Nat} (h : ¬ x.key = k) (l : List Move) :
    findByKey k (x :: l) = findByKey k l :=
  List.find?_cons_of_neg l (by simp [h])

lemma findByKey_updateKey (acc : List Move) (m : Move) (k : Nat × Nat) :
    findByKey k (updateKey acc m) =
      if m.key = k then some (pick (findByKey k acc) m) else findByKey k acc := by
  induction acc with
  | nil =>
    by_cases h : m.key = k
    · rw [if_pos h]
      simp only [updateKey, findByKey, List.find?_nil]
      exact findByKey_cons_of_key h []
    · rw [if_neg h]
      simp only [updateKey, findByKey, List.find?_nil]
      rw [show List.find? (fun x => decide (x.key = k)) [m] = findByKey k (m :: []) from rfl,
        findByKey_cons_of_ne h]
      rfl
  | cons x xs ih =>
    simp only [updateKey]
    by_cases hxm : x.key = m.key
    · rw [if_pos hxm]
      by_cases hmk : m.key = k
      · rw [if_pos hmk]
        have hxk : x.key = k := hxm.trans hmk
        rw [findByKey_cons_of_key hxk]
        by_cases hconf : x.confidence < m.confidence
        · rw [if_pos hconf, findByKey_cons_of_key hmk]
          simp [pick, hconf]
        · rw [if_neg hconf, findByKey_cons_of_key hxk]
          simp [pick, hconf]
      · rw [if_neg hmk]
        have hxk : ¬ x.key = k := fun h => hmk (hxm ▸ h)
        have hpk : ¬ (if x.confidence < m.confidence then m else x).key = k := by
          by_cases hconf : x.confidence < m.confidence
          · rw [if_pos hconf]; exact hmk
          · rw [if_neg hconf]; exact hxk
        rw [findByKey_cons_of_ne hpk, findByKey_cons_of_ne hxk]
    · rw [if_neg hxm]
      by_cases hxk : x.key = k
      · have hmk : ¬ m.key = k := fun h => hxm (hxk.trans h.symm)
        rw [if_neg hmk, findByKey_cons_of_key hxk, findByKey_cons_of_key hxk]
      · rw [findByKey_cons_of_ne hxk, findByKey_cons_of_ne hxk, ih]

lemma foldl_updateKey_findByKey (ms : List Move) (acc : List Move) (k : Nat × Nat) :
    findByKey k (ms.foldl updateKey acc) =
      (ms.filter fun m => decide (m.key = k)).foldl pickO (findByKey k acc) := by
  induction ms generalizing acc with
  | nil => rfl
  | cons m ms ih =>
    simp only [List.foldl_cons, List.filter_cons]
    by_cases hmk : m.key = k
    · rw [if_pos (by simp [hmk])]
      rw [List.foldl_cons, ih, findByKey_updateKey, if_pos hmk]
      rfl
    · rw [if_neg (by simp [hmk])]
      rw [ih, findByKey_updateKey, if_neg hmk]

lemma keys_updateKey (acc : List Move) (m : Move) :
    (updateKey acc m).map Move.key =
      if m.key ∈ acc.map Move.key then acc.map Move.key
      else acc.map Move.key ++ [m.key] := by
  induction acc with
  | nil => simp [updateKey]
  | cons x xs ih =>
    simp only [updateKey, List.map_cons, List.mem_cons]
    by_cases hxm : x.key = m.key
    · rw [if_pos hxm, if_pos (Or.inl hxm.symm)]
      by_cases hconf : x.confidence < m.confidence
      · simp [hconf, hxm]
      · simp [hconf]
    · rw [if_neg hxm]
      by_cases hmem : m.key ∈ xs.map Move.key
      · rw [if_pos (Or.inr hmem)]
        simp only [List.map_cons, ih, if_pos hmem]
      · rw [if_neg (by rintro (h | h); exact hxm h.symm; exact hmem h)]
        simp only [List.map_cons, ih, if_neg hmem, List.cons_append]

lemma keys_nodup_updateKey {acc : List Move} (h : (acc.map Move.key).Nodup) (m : Move) :
    ((updateKey acc m).map Move.key).Nodup := by
  rw [keys_updateKey]
  by_cases hmem : m.key ∈ acc.map Move.key
  · rwa [if_pos hmem]
  · rw [if_neg hmem]
    simp [List.nodup_append, h, hmem]

lemma keys_nodup_foldl_updateKey (ms : List Move) {acc : List Move}
    (h : (acc.map Move.key).Nodup) : ((ms.foldl updateKey acc).map Move.key).Nodup := by
  induction ms generalizing acc with
  | nil => exact h
  | cons m ms ih => exact ih (keys_nodup_updateKey h m)

lemma mem_updateKey {acc : List Move} {m y : Move} (h : y ∈ updateKey acc m) :
    y ∈ acc ∨ y = m := by
  induction acc with
  | nil => simpa [updateKey] using h
  | cons x xs ih =>
    simp only [updateKey] at h
    by_cases hxm : x.key = m.key
    · rw [if_pos hxm] at h
      rcases List.mem_cons.mp h with h | h
      · by_cases hconf : x.confidence < m.confidence
        · rw [if_pos hconf] at h
          exact Or.inr h
        · rw [if_neg hconf] at h
          exact Or.inl (by rw [h]; exact List.mem_cons_self x xs)
      · exact Or.inl (List.mem_cons_of_mem x h)
    · rw [if_neg hxm] at h
      rcases List.mem_cons.mp h with h | h
      · exact Or.inl (by rw [h]; exact List.mem_cons_self x xs)
      · rcases ih h with h | h
        · exact Or.inl (List.mem_cons_of_mem x h)
        · exact Or.inr h

lemma mem_foldl_updateKey {ms : List Move} {acc : List Move} {y : Move}
    (h : y ∈ ms.foldl updateKey acc) : y ∈ acc ∨ y ∈ ms := by
  induction ms generalizing acc with
  | nil => exact Or.inl h
  | cons m ms ih =>
    rcases ih h with h | h
    · rcases mem_updateKey h with h | h
      · exact Or.inl h
      · exact Or.inr (by rw [h]; exact List.mem_cons_self m ms)
    · exact Or.inr (List.mem_cons_of_mem m h)

lemma findByKey_of_mem {l : List Move} (hnd : (l.map Move.key).Nodup) {m : Move}
    (hm : m ∈ l) : findByKey m.key l = some m := by
  induction l with
  | nil => cases hm
  | cons x xs ih =>
    rcases List.mem_cons.mp hm with rfl | hm
    · exact findByKey_cons_of_key rfl xs
    · have hx : ¬ x.key = m.key := by
        intro h
        have : m.key ∈ xs.map Move.key := List.mem_map_of_mem Move.key hm
        rw [← h] at this
        exact (List.nodup_cons.mp (by simpa using hnd)).1 this
      rw [findByKey_cons_of_ne hx]
      exact ih (List.nodup_cons.mp (by simpa using hnd)).2 hm

lemma foldl_pickO_ne_none (l : List Move) (b : Move) :
    l.foldl pickO (some b) ≠ none := by
  induction l generalizing b with
  | nil => simp
  | cons x xs ih =>
    rw [List.foldl_cons]
    exact ih (pick (some b) x)

lemma foldl_pickO_some (l : List Move) (b m : Move)
    (h : l.foldl pickO (some b) = some m) :
    (∀ x ∈ l, x.confidence ≤ m.confidence) ∧ b.confidence ≤ m.confidence ∧
      (m = b ∨ ∃ l1 l2, l = l1 ++ m :: l2 ∧ b.confidence < m.confidence ∧
        ∀ x ∈ l1, x.confidence < m.confidence) := by
  induction l generalizing b with
  | nil =>
    simp only [List.foldl_nil, Option.some.injEq] at h
    exact ⟨by simp, le_of_eq (h ▸ rfl), Or.inl h.symm⟩
  | cons x xs ih =>
    simp only [List.foldl_cons, pickO, pick] at h
    by_cases hconf : b.confidence < x.confidence
    · rw [if_pos hconf] at h
      obtain ⟨hall, hx, hrest⟩ := ih x h
      refine ⟨?_, le_of_lt (lt_of_lt_of_le hconf hx), ?_⟩
      · intro y hy
        rcases List.mem_cons.mp hy with rfl | hy
        · exact hx
        · exact hall y hy
      · rcases hrest with rfl | ⟨l1, l2, hsplit, hlt, hl1⟩
        · exact Or.inr ⟨[], xs, rfl, hconf, by simp⟩
        · exact Or.inr ⟨x :: l1, l2, by rw [hsplit, List.cons_append],
            lt_trans hconf hlt,
            fun y hy => by
              rcases List.mem_cons.mp hy with rfl | hy
              · exact hlt
              · exact hl1 y hy⟩
    · rw [if_neg hconf] at h
      obtain ⟨hall, hb, hrest⟩ := ih b h
      push_neg at hconf
      refine ⟨?_, hb, ?_⟩
      · intro y hy
        rcases List.mem_cons.mp hy with rfl | hy
        · exact le_trans hconf hb
        · exact hall y hy
      · rcases hrest with rfl | ⟨l1, l2, hsplit, hlt, hl1⟩
        · exact Or.inl rfl
        · exact Or.inr ⟨x :: l1, l2, by rw [hsplit, List.cons_append], hlt,
            fun y hy => by
              rcases List.mem_cons.mp hy with rfl | hy
              · exact lt_of_le_of_lt hconf hlt
              · exact hl1 y hy⟩

lemma foldl_pickO_none (l : List Move) (m : Move)
    (h : l.foldl pickO none = some m) :
    (∀ x ∈ l, x.confidence ≤ m.confidence) ∧
      ∃ l1 l2, l = l1 ++ m :: l2 ∧ ∀ x ∈ l1, x.confidence < m.confidence := by
  cases l with
  | nil => cases h
  | cons x xs =>
    simp only [List.foldl_cons, pickO, pick] at h
    obtain ⟨hall, hx, hrest⟩ := foldl_pickO_some xs x m h
    refine ⟨?_, ?_⟩
    · intro y hy
      rcases List.mem_cons.mp hy with rfl | hy
      · exact hx
      · exact hall y hy
    · rcases hrest with rfl | ⟨l1, l2, hsplit, hlt, hl1⟩
      · exact ⟨[], xs, rfl, by simp⟩
      · exact ⟨x :: l1, l2, by rw [hsplit, List.cons_append], fun y hy => by
          rcases List.mem_cons.mp hy with rfl | hy
          · exact hlt
          · exact hl1 y hy⟩

lemma mem_coveredNeighbors {g : Grid} {row col : Nat} {n : NeighborRef}
    (h : n ∈ coveredNeighbors g row col) :
    n ∈ getNeighbors g row col ∧ n.cell.state = CellState.covered := by
  have := List.mem_filter.mp h
  simpa using this

lemma mem_flaggedNeighbors {g : Grid} {row col : Nat} {n : NeighborRef}
    (h : n ∈ flaggedNeighbors g row col) :
    n ∈ getNeighbors g row col ∧ n.cell.state = CellState.flag := by
  have := List.mem_filter.mp h
  simpa using this

lemma sublist_flatMap_of_mem {α β : Type} {p : α} {l : List α} (f : α → List β)
    (h : p ∈ l) : List.Sublist (f p) (l.flatMap f) := by
  induction l with
  | nil => cases h
  | cons x xs ih =>
    rw [List.flatMap_cons]
    rcases List.mem_cons.mp h with rfl | h
    · exact List.sublist_append_left (f p) (xs.flatMap f)
    · exact (ih h).trans (List.sublist_append_right (f x) (xs.flatMap f))

lemma analyzeCell_ruleA {g : Grid} {row col N : Nat} {cell : Cell}
    (hc : getCellN g row col = some cell)
    (hs : cell.state = CellState.revealed)
    (hv : cell.value = some N)
    (hN : 0 < N)
    (hf : (flaggedNeighbors g row col).length = N)
    (hcov : 0 < (coveredNeighbors g row col).length) :
    analyzeCell g row col = ruleAMoves g row col N := by
  unfold analyzeCell
  rw [hc]
  dsimp only
  rw [hv]
  rw [if_neg (by simp [hs]; omega)]
  simp only [Option.getD_some]
  rw [if_pos ⟨hf, hcov⟩, if_neg (by omega)]
  exact List.append_nil _

lemma analyzeCell_ruleB {g : Grid} {row col N : Nat} {cell : Cell}
    (hc : getCellN g row col = some cell)
    (hs : cell.state = CellState.revealed)
    (hv : cell.value = some N)
    (hN : 0 < N)
    (hfu : (coveredNeighbors g row col).length + (flaggedNeighbors g row col).length = N)
    (hcov : 0 < (coveredNeighbors g row col).length) :
    analyzeCell g row col =
      ruleBMoves g row col N (flaggedNeighbors g row col).length
        (coveredNeighbors g row col).length := by
  unfold analyzeCell
  rw [hc]
  dsimp only
  rw [hv]
  rw [if_neg (by simp [hs]; omega)]
  simp only [Option.getD_some]
  rw [if_neg (by omega), if_pos ⟨hfu, hcov⟩]
  exact List.nil_append _

lemma mem_analyzeCell {g : Grid} {row col : Nat} {m : Move}
    (h : m ∈ analyzeCell g row col) :
    ∃ cell, getCellN g row col = some cell ∧ cell.state = CellState.revealed ∧
      ∃ N, cell.value = some N ∧ 0 < N ∧
        (((flaggedNeighbors g row col).length = N ∧
            0 < (coveredNeighbors g row col).length ∧
            m ∈ ruleAMoves g row col N) ∨
          ((coveredNeighbors g row col).length + (flaggedNeighbors g row col).length = N ∧
            0 < (coveredNeighbors g row col).length ∧
            m ∈ ruleBMoves g row col N (flaggedNeighbors g row col).length
              (coveredNeighbors g row col).length)) := by
  unfold analyzeCell at h
  rcases hc : getCellN g row col with _ | cell
  · rw [hc] at h
    cases h
  · rw [hc] at h
    dsimp only at h
    by_cases hskip : cell.state ≠ CellState.revealed ∨ cell.value = some 0 ∨ cell.value = none
    · rw [if_pos hskip] at h
      cases h
    · rw [if_neg hskip] at h
      push_neg at hskip
      obtain ⟨hs, hv0, hvn⟩ := hskip
      rcases hval : cell.value with _ | N
      · exact absurd hval hvn
      · have hN : 0 < N := by
          rcases Nat.eq_zero_or_pos N with rfl | hpos
          · exact absurd hval hv0
          · exact hpos
        rw [hval] at h
        simp only [Option.getD_some] at h
        refine ⟨cell, rfl, not_not.mp (fun hns => hns hs), N, hval, hN, ?_⟩
        rcases List.mem_append.mp h with h | h
        · by_cases hA : (flaggedNeighbors g row col).length = N ∧
              0 < (coveredNeighbors g row col).length
          · rw [if_pos hA] at h
            exact Or.inl ⟨hA.1, hA.2, h⟩
          · rw [if_neg hA] at h
            cases h
        · by_cases hB : (coveredNeighbors g row col).length +
              (flaggedNeighbors g row col).length = N ∧
              0 < (coveredNeighbors g row col).length
          · rw [if_pos hB] at h
            exact Or.inr ⟨hB.1, hB.2, h⟩
          · rw [if_neg hB] at h
            cases h

lemma covered_target_of_mem_ruleA {g : Grid} {row col N : Nat} {m : Move}
    (h : m ∈ ruleAMoves g row col N) :
    ∃ c, getCellN g m.row m.col = some c ∧ c.state = CellState.covered ∧
      m.action = MoveAction.reveal ∧ m.confidence = 1 := by
  unfold ruleAMoves at h
  obtain ⟨n, hn, rfl⟩ := List.mem_map.mp h
  obtain ⟨hmem, hcov⟩ := mem_coveredNeighbors hn
  exact ⟨n.cell, (of_mem_getNeighbors hmem).2, hcov, rfl, rfl⟩

lemma covered_target_of_mem_ruleB {g : Grid} {row col N F U : Nat} {m : Move}
    (h : m ∈ ruleBMoves g row col N F U) :
    ∃ c, getCellN g m.row m.col = some c ∧ c.state = CellState.covered ∧
      m.action = MoveAction.flag ∧ m.confidence = 1 := by
  unfold ruleBMoves at h
  obtain ⟨n, hn, rfl⟩ := List.mem_map.mp h
  obtain ⟨hmem, hcov⟩ := mem_coveredNeighbors hn
  exact ⟨n.cell, (of_mem_getNeighbors hmem).2, hcov, rfl, rfl⟩

lemma covered_target_of_mem_raw {g : Grid} {m : Move}
    (h : m ∈ findSafeMovesRaw g) :
    ∃ c, getCellN g m.row m.col = some c ∧ c.state = CellState.covered := by
  unfold findSafeMovesRaw at h
  obtain ⟨p, _, hp⟩ := List.mem_flatMap.mp h
  obtain ⟨cell, _, _, N, _, _, hcase⟩ := mem_analyzeCell hp
  rcases hcase with ⟨_, _, hm⟩ | ⟨_, _, hm⟩
  · obtain ⟨c, hc, hcov, _, _⟩ := covered_target_of_mem_ruleA hm
    exact ⟨c, hc, hcov⟩
  · obtain ⟨c, hc, hcov, _, _⟩ := covered_target_of_mem_ruleB hm
    exact ⟨c, hc, hcov⟩

lemma mem_findSafeMoves_sub {g : Grid} {m : Move} (h : m ∈ findSafeMoves g) :
    m ∈ findSafeMovesRaw g := by
  unfold findSafeMoves at h
  split at h
  · cases h
  · rcases mem_foldl_updateKey h with h | h
    · cases h
    · exact h

lemma jsClamp_bounds (x : ℚ) : 0 ≤ jsMin 1 (jsMax 0 x) ∧ jsMin 1 (jsMax 0 x) ≤ 1 := by
  unfold jsMin jsMax
  split_ifs <;> constructor <;> linarith

lemma mem_probAt {g : Grid} {row col : Nat} {p : ProbEntry} (h : p ∈ probAt g row col) :
    p.row = row ∧ p.col = col ∧
      (∃ c, getCellN g row col = some c ∧ c.state = CellState.covered) ∧
      0 ≤ p.mineProbability ∧ p.mineProbability ≤ 1 := by
  unfold probAt at h
  rcases hc : getCellN g row col with _ | cell
  · rw [hc] at h
    cases h
  · rw [hc] at h
    dsimp only at h
    by_cases hcov : cell.state ≠ CellState.covered
    · rw [if_pos hcov] at h
      cases h
    · rw [if_neg hcov] at h
      have hcov' : cell.state = CellState.covered := not_not.mp hcov
      split at h
      · rcases List.mem_singleton.mp h with rfl
        refine ⟨rfl, rfl, ⟨cell, rfl, hcov'⟩, by norm_num, by norm_num⟩
      · rcases List.mem_singleton.mp h with rfl
        exact ⟨rfl, rfl, ⟨cell, rfl, hcov'⟩, (jsClamp_bounds _).1, (jsClamp_bounds _).2⟩

lemma mem_calculateProbabilities {g : Grid} {p : ProbEntry}
    (h : p ∈ calculateProbabilities g) :
    (∃ c, getCellN g p.row p.col = some c ∧ c.state = CellState.covered) ∧
      0 ≤ p.mineProbability ∧ p.mineProbability ≤ 1 := by
  unfold calculateProbabilities at h
  obtain ⟨q, _, hq⟩ := List.mem_flatMap.mp h
  obtain ⟨hr, hcl, hcell, hb⟩ := mem_probAt hq
  rw [← hr, ← hcl] at hcell
  exact ⟨hcell, hb⟩

lemma mem_coveredPositions {g : Grid} {p : Nat × Nat} (h : p ∈ coveredPositions g) :
    ∃ c, getCellN g p.1 p.2 = some c ∧ c.state = CellState.covered := by
  unfold coveredPositions at h
  obtain ⟨hmem, hpred⟩ := List.mem_filter.mp h
  rcases hc : getCellN g p.1 p.2 with _ | cell
  · rw [hc] at hpred
    cases hpred
  · rw [hc] at hpred
    exact ⟨cell, rfl, by simpa using hpred⟩

lemma findRandomCovered_inv {g : Grid} {rand : Nat} {m : Move}
    (h : findRandomCovered g rand = some m) :
    m.action = MoveAction.reveal ∧ m.confidence = 1 / 2 ∧
      ∃ c, getCellN g m.row m.col = some c ∧ c.state = CellState.covered := by
  unfold findRandomCovered at h
  dsimp only at h
  rcases hp : (coveredPositions g)[rand % (coveredPositions g).length]? with _ | p
  · rw [hp] at h
    cases h
  · rw [hp] at h
    dsimp only at h
    obtain rfl := Option.some_injective _ h
    obtain ⟨c, hc, hcov⟩ := mem_coveredPositions (List.getElem?_mem hp)
    exact ⟨rfl, rfl, c, hc, hcov⟩

lemma findBestGuess_inv {cfg : Config} {g : Grid} {rand : Nat} {m : Move}
    (h : findBestGuess cfg g rand = some m) :
    m.action = MoveAction.reveal ∧
      ∃ c, getCellN g m.row m.col = some c ∧ c.state = CellState.covered := by
  unfold findBestGuess at h
  split at h
  · obtain ⟨ha, _, hc⟩ := findRandomCovered_inv h
    exact ⟨ha, hc⟩
  · dsimp only at h
    split at h
    · obtain ⟨ha, _, hc⟩ := findRandomCovered_inv h
      exact ⟨ha, hc⟩
    · rcases hh : ((calculateProbabilities g).insertionSort probLE).head? with _ | best
      · rw [hh] at h
        cases h
      · rw [hh] at h
        dsimp only at h
        split at h
        · obtain rfl := Option.some_injective _ h
          have hbest : best ∈ calculateProbabilities g :=
            (List.mem_insertionSort probLE).mp (List.mem_of_mem_head? (by rw [hh]; rfl))
          obtain ⟨⟨c, hc, hcov⟩, _⟩ := mem_calculateProbabilities hbest
          exact ⟨rfl, c, hc, hcov⟩
        · cases h

lemma getNextMove_inv {cfg : Config} {g : Grid} {rand : Nat} {m : Move}
    (h : getNextMove cfg g rand = some m) :
    m ∈ findSafeMoves g ∨ findBestGuess cfg g rand = some m := by
  unfold getNextMove at h
  dsimp only at h
  split at h
  · split at h
    · exact Or.inl (List.mem_filter.mp
        (List.mem_of_mem_head? (by rw [h]; rfl))).1
    · split at h
      · exact Or.inl (List.mem_filter.mp
          (List.mem_of_mem_head? (by rw [h]; rfl))).1
      · exact Or.inl (List.mem_of_mem_head? (by rw [h]; rfl))
  · exact Or.inr h

lemma mem_revealedNumberedNeighbors {g : Grid} {row col : Nat} {n : NeighborRef}
    (h : n ∈ revealedNumberedNeighbors g row col) :
    n ∈ getNeighbors g row col ∧ n.cell.state = CellState.revealed ∧
      0 < n.cell.value.getD 0 := by
  have := List.mem_filter.mp h
  simpa using this

lemma covered_pos_of_neighbor {g : Grid} (hw : g.WF) {row col : Nat} {cell : Cell}
    (hc : getCellN g row col = some cell) (hcov : cell.state = CellState.covered)
    {n : NeighborRef} (hn : n ∈ getNeighbors g row col) :
    0 < (coveredNeighbors g n.row n.col).length := by
  obtain ⟨hidx, hcell⟩ := of_mem_getNeighbors hn
  have hbounds := mem_getNeighborIndices_iff.mp hidx
  obtain ⟨hrow, hcol⟩ := getCellN_lt_of_WF hw hc
  have hsym : (row, col) ∈ getNeighborIndices g n.row n.col := by
    rw [mem_getNeighborIndices_iff]
    obtain ⟨h1, h2, h3, h4, h5, h6, h7⟩ := hbounds
    refine ⟨hrow, hcol, ?_, ?_, ?_, ?_, ?_⟩ <;> omega
  have hmem : (⟨row, col, cell⟩ : NeighborRef) ∈ getNeighbors g n.row n.col :=
    mem_getNeighbors_intro hcell hsym hc
  have hmemc : (⟨row, col, cell⟩ : NeighborRef) ∈ coveredNeighbors g n.row n.col :=
    List.mem_filter.mpr ⟨hmem, by simp [hcov]⟩
  exact List.length_pos.mpr (List.ne_nil_of_mem hmemc)

lemma foldl_density_eq_sum (g : Grid) (l : List NeighborRef) (c : ℚ)
    (h : ∀ n ∈ l, 0 < (coveredNeighbors g n.row n.col).length) :
    l.foldl (fun acc n =>
      if 0 < (coveredNeighbors g n.row n.col).length then
        acc + ((n.cell.value.getD 0 : ℚ) - ((flaggedNeighbors g n.row n.col).length : ℚ)) /
          ((coveredNeighbors g n.row n.col).length : ℚ)
      else acc) c = c + (l.map (specLocalDensity g)).sum := by
  induction l generalizing c with
  | nil => simp
  | cons x xs ih =>
    rw [List.foldl_cons, if_pos (h x (List.mem_cons_self x xs)),
      ih _ (fun n hn => h n (List.mem_cons_of_mem x hn)), List.map_cons, List.sum_cons,
      specLocalDensity]
    ring

lemma localDensityTotal_eq_sum {g : Grid} (hw : g.WF) {row col : Nat} {cell : Cell}
    (hc : getCellN g row col = some cell) (hcov : cell.state = CellState.covered) :
    localDensityTotal g row col =
      ((revealedNumberedNeighbors g row col).map (specLocalDensity g)).sum := by
  unfold localDensityTotal
  rw [foldl_density_eq_sum g _ 0
    (fun n hn => covered_pos_of_neighbor hw hc hcov (mem_revealedNumberedNeighbors hn).1)]
  rw [zero_add]

lemma getCellN_initializeGrid {rows cols row col : Nat} {cell : Cell}
    (h : getCellN (initializeGrid rows cols) row col = some cell) :
    cell = ⟨CellState.unknown, none⟩ := by
  unfold getCellN initializeGrid at h
  rw [Option.bind_eq_some] at h
  obtain ⟨r, hr, hcl⟩ := h
  simp only [List.getElem?_map, Option.map_eq_some'] at hr
  obtain ⟨i, _, rfl⟩ := hr
  simp only [List.getElem?_map, Option.map_eq_some'] at hcl
  obtain ⟨j, _, rfl⟩ := hcl
  rfl

lemma getCellN_scanGrid {g : Grid} {obs : Nat → Nat → Obs} {row col : Nat} {cell : Cell}
    (h : getCellN (scanGrid obs g) row col = some cell) :
    ∃ r c, cell = applyObs (obs r c) := by
  unfold getCellN scanGrid at h
  rw [Option.bind_eq_some] at h
  obtain ⟨r, hr, hcl⟩ := h
  simp only [List.getElem?_map, Option.map_eq_some'] at hr
  obtain ⟨i, hi, rfl⟩ := hr
  simp only [List.getElem?_map, Option.map_eq_some'] at hcl
  obtain ⟨j, hj, rfl⟩ := hcl
  exact ⟨i, j, rfl⟩

lemma applyObs_value_iff (o : Obs) :
    ((applyObs o).value ≠ none ↔ (applyObs o).state = CellState.revealed) := by
  cases o <;> simp [applyObs]

lemma getCell_out_of_bounds {g : Grid} (hw : g.WF) {row col : Int}
    (h : ¬(0 ≤ row ∧ row < (g.rows : Int) ∧ 0 ≤ col ∧ col < (g.cols : Int))) :
    getCell g row col = none := by
  unfold getCell
  by_cases hneg : row < 0 ∨ col < 0
  · rw [if_pos hneg]
  · rw [if_neg hneg]
    push_neg at hneg
    rcases hr : g.cells[row.toNat]? with _ | r
    · rfl
    · have hrow_lt : row.toNat < g.cells.length := by
        by_contra hno
        push_neg at hno
        rw [List.getElem?_eq_none hno] at hr
        cases hr
      have hrlen : r.length = g.cols := hw.2 r (List.getElem?_mem hr)
      have hw1 : g.cells.length = g.rows := hw.1
      have hcol : r.length ≤ col.toNat := by omega
      rw [Option.some_bind, List.getElem?_eq_none hcol]

/-- C3: for every revealed cell whose value N is positive, whose flagged
neighbor count equals N and which still has covered neighbors, the
`findSafeMoves` pass at that cell produces exactly one Reveal move of
confidence 1.0 per covered neighbor (and nothing else), and that block of
moves is contributed verbatim to the pre-deduplication move list. -/
theorem c3_rule_a_exhaust (g : Grid) (row col : Nat) (cell : Cell) (N : Nat)
    (hc : getCellN g row col = some cell)
    (hs : cell.state = CellState.revealed)
    (hv : cell.value = some N)
    (hN : 0 < N)
    (hf : (flaggedNeighbors g row col).length = N)
    (hcov : 0 < (coveredNeighbors g row col).length) :
    analyzeCell g row col =
      (coveredNeighbors g row col).map (fun n =>
        ⟨n.row, n.col, MoveAction.reveal, 1,
          s!"All {N} mines flagged around ({row},{col})"⟩) ∧
    (analyzeCell g row col).length = (coveredNeighbors g row col).length ∧
    (row < g.rows → col < g.cols →
      List.Sublist (analyzeCell g row col) (findSafeMovesRaw g)) := by
  have heq := analyzeCell_ruleA hc hs hv hN hf hcov
  refine ⟨heq, ?_, ?_⟩
  · rw [heq]
    exact List.length_map _ _
  · intro hrow hcol
    unfold findSafeMovesRaw
    exact sublist_flatMap_of_mem (fun p => analyzeCell g p.1 p.2)
      (mem_positions_iff.mpr ⟨hrow, hcol⟩)

/-- C3 witness: on the 3×3 Rule-A grid the center "2" with two flags and
three covered neighbors yields exactly those three Reveal moves. -/
theorem c3_witness :
    analyzeCell demoRuleAGrid 1 1 =
      (coveredNeighbors demoRuleAGrid 1 1).map (fun n =>
        ⟨n.row, n.col, MoveAction.reveal, 1, "All 2 mines flagged around (1,1)"⟩) :=
  (c3_rule_a_exhaust demoRuleAGrid 1 1 (revealedCell 2) 2 (by decide) (by decide)
    (by decide) (by decide) (by decide) (by decide)).1

/-- C4: for every revealed cell whose value N is positive and whose covered
plus flagged neighbor counts sum to N with at least one covered neighbor,
the `findSafeMoves` pass at that cell produces exactly one Flag move of
confidence 1.0 per covered neighbor (and nothing else), contributed
verbatim to the pre-deduplication move list. -/
theorem c4_rule_b_saturate (g : Grid) (row col : Nat) (cell : Cell) (N : Nat)
    (hc : getCellN g row col = some cell)
    (hs : cell.state = CellState.revealed)
    (hv : cell.value = some N)
    (hN : 0 < N)
    (hfu : (coveredNeighbors g row col).length + (flaggedNeighbors g row col).length = N)
    (hcov : 0 < (coveredNeighbors g row col).length) :
    analyzeCell g row col =
      (coveredNeighbors g row col).map (fun n =>
        ⟨n.row, n.col, MoveAction.flag, 1,
          s!"{(coveredNeighbors g row col).length} covered = {N - (flaggedNeighbors g row col).length} remaining mines at ({row},{col})"⟩) ∧
    (analyzeCell g row col).length = (coveredNeighbors g row col).length ∧
    (row < g.rows → col < g.cols →
      List.Sublist (analyzeCell g row col) (findSafeMovesRaw g)) := by
  have heq := analyzeCell_ruleB hc hs hv hN hfu hcov
  refine ⟨heq, ?_, ?_⟩
  · rw [heq]
    exact List.length_map _ _
  · intro hrow hcol
    unfold findSafeMovesRaw
    exact sublist_flatMap_of_mem (fun p => analyzeCell g p.1 p.2)
      (mem_positions_iff.mpr ⟨hrow, hcol⟩)

/-- C4 witness: on the 3×3 Rule-B grid the center "3" with one flag and two
covered neighbors yields exactly those two Flag moves. -/
theorem c4_witness :
    analyzeCell demoRuleBGrid 1 1 =
      (coveredNeighbors demoRuleBGrid 1 1).map (fun n =>
        ⟨n.row, n.col, MoveAction.flag, 1, "2 covered = 2 remaining mines at (1,1)"⟩) :=
  (c4_rule_b_saturate demoRuleBGrid 1 1 (revealedCell 3) 3 (by decide) (by decide)
    (by decide) (by decide) (by decide) (by decide)).1

/-- C5: `deduplicateMoves` keeps at most one move per `(row, col)` key; every
kept move is one of the inputs, has maximal confidence among the inputs with
its key, and is the first input with its key to attain that confidence
(ties keep the earlier move); a key occurs in the output iff it occurs in
the input, and in particular `findSafeMoves` emits at most one move per
cell. -/
theorem c5_deduplication (moves : List Move) :
    ((deduplicateMoves moves).map Move.key).Nodup ∧
    (∀ m ∈ deduplicateMoves moves, m ∈ moves) ∧
    (∀ m ∈ deduplicateMoves moves,
      (∀ x ∈ moves, x.key = m.key → x.confidence ≤ m.confidence) ∧
      ∃ l1 l2, (moves.filter fun x => decide (x.key = m.key)) = l1 ++ m :: l2 ∧
        ∀ x ∈ l1, x.confidence < m.confidence) ∧
    (∀ k : Nat × Nat, (∃ m ∈ moves, m.key = k) ↔ ∃ m ∈ deduplicateMoves moves, m.key = k) ∧
    (∀ g : Grid, ((findSafeMoves g).map Move.key).Nodup) := by
  have hnd : ((deduplicateMoves moves).map Move.key).Nodup :=
    keys_nodup_foldl_updateKey moves (by simp)
  have hfind : ∀ k, findByKey k (deduplicateMoves moves) =
      (moves.filter fun m => decide (m.key = k)).foldl pickO none := by
    intro k
    have := foldl_updateKey_findByKey moves [] k
    simpa [findByKey] using this
  refine ⟨hnd, ?_, ?_, ?_, ?_⟩
  · intro m hm
    rcases mem_foldl_updateKey hm with h | h
    · cases h
    · exact h
  · intro m hm
    have hself : findByKey m.key (deduplicateMoves moves) = some m := findByKey_of_mem hnd hm
    rw [hfind m.key] at hself
    obtain ⟨hmax, l1, l2, hsplit, hfirst⟩ := foldl_pickO_none _ m hself
    refine ⟨?_, l1, l2, hsplit, hfirst⟩
    intro x hx hk
    exact hmax x (List.mem_filter.mpr ⟨hx, by simp [hk]⟩)
  · intro k
    constructor
    · rintro ⟨m, hm, hk⟩
      have hne : (moves.filter fun x => decide (x.key = k)) ≠ [] :=
        List.ne_nil_of_mem (List.mem_filter.mpr ⟨hm, by simp [hk]⟩)
      rcases hfk : findByKey k (deduplicateMoves moves) with _ | m'
      · rw [hfind k] at hfk
        rcases hfl : (moves.filter fun x => decide (x.key = k)) with _ | ⟨y, ys⟩
        · exact absurd hfl hne
        · rw [hfl, List.foldl_cons] at hfk
          exact absurd hfk (foldl_pickO_ne_none ys (pick none y))
      · have hm' : m' ∈ deduplicateMoves moves :=
          List.mem_of_find?_eq_some hfk
        have hk' : m'.key = k := by
          have := List.find?_some hfk
          simpa using this
        exact ⟨m', hm', hk'⟩
    · rintro ⟨m, hm, hk⟩
      have hmm : m ∈ moves := by
        rcases mem_foldl_updateKey hm with h | h
        · cases h
        · exact h
      exact ⟨m, hmm, hk⟩
  · intro g
    unfold findSafeMoves
    split
    · simp
    · exact keys_nodup_foldl_updateKey _ (by simp)

/-- C5 witness: on a four-move list with two key collisions, the `(0,1)` key
keeps the later strictly-higher-confidence move, which is one of the
inputs. -/
theorem c5_witness : (⟨0, 1, MoveAction.reveal, 3 / 4, "d"⟩ : Move) ∈ demoMoves :=
  (c5_deduplication demoMoves).2.1 _ (by decide)

/-- C6: a numeric observation sets `state = revealed` and `value` to that
number, every non-numeric observation clears `value`, and hence after
`initializeGrid` and after every `scanGrid` a cell's `value` is non-null
exactly when its `state` is `revealed`. -/
theorem c6_value_iff_revealed :
    (∀ o : Obs, ((applyObs o).value ≠ none ↔ (applyObs o).state = CellState.revealed) ∧
      (∀ n : Nat, o = Obs.num n → applyObs o = ⟨CellState.revealed, some n⟩) ∧
      ((∀ n : Nat, o ≠ Obs.num n) → (applyObs o).value = none)) ∧
    (∀ rows cols row col : Nat, ∀ cell : Cell,
      getCellN (initializeGrid rows cols) row col = some cell →
      (cell.value ≠ none ↔ cell.state = CellState.revealed)) ∧
    (∀ (g : Grid) (obs : Nat → Nat → Obs) (row col : Nat) (cell : Cell),
      getCellN (scanGrid obs g) row col = some cell →
      (cell.value ≠ none ↔ cell.state = CellState.revealed)) := by
  refine ⟨?_, ?_, ?_⟩
  · intro o
    refine ⟨applyObs_value_iff o, ?_, ?_⟩
    · rintro n rfl
      rfl
    · intro hnum
      cases o with
      | num n => exact absurd rfl (hnum n)
      | covered => rfl
      | flag => rfl
      | mine => rfl
  · intro rows cols row col cell h
    rw [getCellN_initializeGrid h]
    simp
  · intro g obs row col cell h
    obtain ⟨r, c, rfl⟩ := getCellN_scanGrid h
    exact applyObs_value_iff (obs r c)

/-- C6 witness: scanning a 2×2 initialized grid with a "1" observed at the
origin yields a cell satisfying the value/state equivalence there. -/
theorem c6_witness :
    ((revealedCell 1).value ≠ none ↔ (revealedCell 1).state = CellState.revealed) :=
  c6_value_iff_revealed.2.2 (initializeGrid 2 2)
    (fun r c => if r = 0 ∧ c = 0 then Obs.num 1 else Obs.covered) 0 0
    (revealedCell 1) (by decide)

/-- C7: every move the solver can produce — a deduplicated safe move, a
probability-based best guess, a random fallback, or the combined
`getNextMove` result — targets a cell currently in `covered` state. -/
theorem c7_moves_target_covered (g : Grid) :
    (∀ m ∈ findSafeMoves g,
      ∃ c, getCellN g m.row m.col = some c ∧ c.state = CellState.covered) ∧
    (∀ (cfg : Config) (rand : Nat) (m : Move), findBestGuess cfg g rand = some m →
      ∃ c, getCellN g m.row m.col = some c ∧ c.state = CellState.covered) ∧
    (∀ (rand : Nat) (m : Move), findRandomCovered g rand = some m →
      ∃ c, getCellN g m.row m.col = some c ∧ c.state = CellState.covered) ∧
    (∀ (cfg : Config) (rand : Nat) (m : Move), getNextMove cfg g rand = some m →
      ∃ c, getCellN g m.row m.col = some c ∧ c.state = CellState.covered) := by
  have hsafe : ∀ m ∈ findSafeMoves g,
      ∃ c, getCellN g m.row m.col = some c ∧ c.state = CellState.covered :=
    fun m hm => covered_target_of_mem_raw (mem_findSafeMoves_sub hm)
  have hbest : ∀ (cfg : Config) (rand : Nat) (m : Move), findBestGuess cfg g rand = some m →
      ∃ c, getCellN g m.row m.col = some c ∧ c.state = CellState.covered :=
    fun _ _ _ h => (findBestGuess_inv h).2
  refine ⟨hsafe, hbest, ?_, ?_⟩
  · intro rand m h
    exact (findRandomCovered_inv h).2.2
  · intro cfg rand m h
    rcases getNextMove_inv h with h | h
    · exact hsafe m h
    · exact hbest cfg rand m h

/-- C7 witness: the random fallback at index 0 on the 1×3 grid targets the
covered cell at `(0,0)`. -/
theorem c7_witness :
    ∃ c, getCellN demoTripleGrid 0 0 = some c ∧ c.state = CellState.covered :=
  (c7_moves_target_covered demoTripleGrid).2.2.1 0
    ⟨0, 0, MoveAction.reveal, 1 / 2, "Random guess"⟩ (by decide)

/-- C9: on a well-formed grid, `getCell` returns `none` (rather than
failing) at every out-of-bounds coordinate, and `getNeighborIndices` /
`getNeighbors` return only in-bounds coordinates, never include the cell
itself, and have at most 8 entries. -/
theorem c9_bounds_safety (g : Grid) (hw : g.WF) :
    (∀ row col : Int,
      ¬(0 ≤ row ∧ row < (g.rows : Int) ∧ 0 ≤ col ∧ col < (g.cols : Int)) →
      getCell g row col = none) ∧
    (∀ row col : Nat, ∀ p ∈ getNeighborIndices g row col,
      p.1 < g.rows ∧ p.2 < g.cols ∧ ¬(p.1 = row ∧ p.2 = col)) ∧
    (∀ row col : Nat, (getNeighborIndices g row col).length ≤ 8) ∧
    (∀ row col : Nat, ∀ n ∈ getNeighbors g row col,
      n.row < g.rows ∧ n.col < g.cols ∧ ¬(n.row = row ∧ n.col = col)) ∧
    (∀ row col : Nat, (getNeighbors g row col).length ≤ 8) := by
  refine ⟨fun row col h => getCell_out_of_bounds hw h, ?_, ?_, ?_, ?_⟩
  · rintro row col ⟨r, c⟩ hp
    obtain ⟨h1, h2, h3, _⟩ := mem_getNeighborIndices_iff.mp hp
    exact ⟨h1, h2, h3⟩
  · exact fun row col => length_getNeighborIndices_le g row col
  · intro row col n hn
    obtain ⟨hidx, _⟩ := of_mem_getNeighbors hn
    obtain ⟨h1, h2, h3, _⟩ := mem_getNeighborIndices_iff.mp hidx
    exact ⟨h1, h2, h3⟩
  · exact fun row col => length_getNeighbors_le g row col

/-- C9 witness: on the 1×3 grid, a negative row and an out-of-range column
both yield `none` from `getCell`. -/
theorem c9_witness :
    getCell demoTripleGrid (-1) 0 = none ∧ getCell demoTripleGrid 0 5 = none :=
  ⟨(c9_bounds_safety demoTripleGrid (by decide)).1 (-1) 0 (by decide),
   (c9_bounds_safety demoTripleGrid (by decide)).1 0 5 (by decide)⟩

/-- C10: both guessing paths (`findBestGuess` and `findRandomCovered`) only
ever return Reveal moves; a Flag move in the raw safe-move list can only
come from a Rule-B source cell, with the Rule-B counts satisfied there. -/
theorem c10_flags_only_from_rule_b (g : Grid) :
    (∀ (cfg : Config) (rand : Nat) (m : Move), findBestGuess cfg g rand = some m →
      m.action = MoveAction.reveal) ∧
    (∀ (rand : Nat) (m : Move), findRandomCovered g rand = some m →
      m.action = MoveAction.reveal) ∧
    (∀ m ∈ findSafeMovesRaw g, m.action = MoveAction.flag →
      ∃ (row col : Nat) (cell : Cell) (N : Nat),
        getCellN g row col = some cell ∧ cell.state = CellState.revealed ∧
        cell.value = some N ∧ 0 < N ∧
        (coveredNeighbors g row col).length + (flaggedNeighbors g row col).length = N ∧
        0 < (coveredNeighbors g row col).length ∧
        m ∈ ruleBMoves g row col N (flaggedNeighbors g row col).length
          (coveredNeighbors g row col).length) := by
  refine ⟨fun _ _ _ h => (findBestGuess_inv h).1,
    fun _ _ h => (findRandomCovered_inv h).1, ?_⟩
  intro m hm hflag
  unfold findSafeMovesRaw at hm
  obtain ⟨p, _, hp⟩ := List.mem_flatMap.mp hm
  obtain ⟨cell, hc, hs, N, hv, hN, hcase⟩ := mem_analyzeCell hp
  rcases hcase with ⟨_, _, hmA⟩ | ⟨hsum, hcov, hmB⟩
  · obtain ⟨_, _, _, ha, _⟩ := covered_target_of_mem_ruleA hmA
    rw [hflag] at ha
    cases ha
  · exact ⟨p.1, p.2, cell, N, hc, hs, hv, hN, hsum, hcov, hmB⟩

/-- C10 witness: the Flag move at `(0,1)` in the Rule-B grid's raw move list
traces back to a Rule-B source cell. -/
theorem c10_witness :
    ∃ (row col : Nat) (cell : Cell) (N : Nat),
      getCellN demoRuleBGrid row col = some cell ∧ cell.state = CellState.revealed ∧
      cell.value = some N ∧ 0 < N ∧
      (coveredNeighbors demoRuleBGrid row col).length +
        (flaggedNeighbors demoRuleBGrid row col).length = N ∧
      0 < (coveredNeighbors demoRuleBGrid row col).length ∧
      (⟨0, 1, MoveAction.flag, 1, "2 covered = 2 remaining mines at (1,1)"⟩ : Move) ∈
        ruleBMoves demoRuleBGrid row col N
          (flaggedNeighbors demoRuleBGrid row col).length
          (coveredNeighbors demoRuleBGrid row col).length :=
  (c10_flags_only_from_rule_b demoRuleBGrid).2.2
    ⟨0, 1, MoveAction.flag, 1, "2 covered = 2 remaining mines at (1,1)"⟩
    (by decide) (by decide)

/-- C8: a covered cell with no revealed numbered neighbor gets the 0.15
default prior; otherwise it gets the average of the local densities
`(value − flagged)/covered` over its qualifying revealed neighbors, clamped
to [0,1]; and every probability the estimator returns lies in [0,1]. -/
theorem c8_probability_estimator (g : Grid) (hw : g.WF) (row col : Nat) (cell : Cell)
    (hc : getCellN g row col = some cell) (hcov : cell.state = CellState.covered) :
    (revealedNumberedNeighbors g row col = [] →
      probAt g row col = [⟨row, col, 15 / 100⟩]) ∧
    (revealedNumberedNeighbors g row col ≠ [] →
      probAt g row col =
        [⟨row, col, jsMin 1 (jsMax 0 (specAverageDensity g row col))⟩]) ∧
    (∀ p ∈ calculateProbabilities g, 0 ≤ p.mineProbability ∧ p.mineProbability ≤ 1) := by
  refine ⟨?_, ?_, fun p hp => (mem_calculateProbabilities hp).2⟩
  · intro hemp
    unfold probAt
    rw [hc]
    dsimp only
    rw [if_neg (not_not_intro hcov), if_pos (by simp [hemp])]
  · intro hne2
    unfold probAt
    rw [hc]
    dsimp only
    rw [if_neg (not_not_intro hcov), if_neg (by simp [List.isEmpty_iff, hne2])]
    rw [localDensityTotal_eq_sum hw hc hcov]
    rfl

/-- C8 witness: on the 1×2 grid, the covered cell next to the revealed "1"
with a single covered neighbor gets the clamped spec average — which is 1. -/
theorem c8_witness :
    probAt demoPairGrid 0 1 =
      [⟨0, 1, jsMin 1 (jsMax 0 (specAverageDensity demoPairGrid 0 1))⟩] ∧
    jsMin 1 (jsMax 0 (specAverageDensity demoPairGrid 0 1)) = 1 :=
  ⟨(c8_probability_estimator demoPairGrid (by decide) 0 1 coveredCell (by decide)
    (by decide)).2.1 (by decide), by decide⟩

/-- C2 (amended): with advanced logic on and a nonempty probability list
whose entries all exceed `1 − safeProbability` in mine risk, `findBestGuess`
returns `null`; if additionally no safe move exists, `getNextMove` returns
`null` — the random covered fallback is not taken in this situation. -/
theorem c2_risky_guess_rejected (cfg : Config) (g : Grid) (rand : Nat)
    (hadv : cfg.useAdvancedLogic = true)
    (hne : calculateProbabilities g ≠ [])
    (hrisky : ∀ p ∈ calculateProbabilities g,
      1 - cfg.safeProbability < p.mineProbability) :
    findBestGuess cfg g rand = none ∧
    (findSafeMoves g = [] → getNextMove cfg g rand = none) := by
  have hbg : findBestGuess cfg g rand = none := by
    unfold findBestGuess
    rw [if_neg (by rw [hadv]; simp)]
    dsimp only
    rw [if_neg (by simp [List.isEmpty_iff, hne])]
    rcases hh : ((calculateProbabilities g).insertionSort probLE).head? with _ | best
    · exfalso
      rw [List.head?_eq_none_iff] at hh
      have hperm := List.perm_insertionSort probLE (calculateProbabilities g)
      rw [hh] at hperm
      exact hne hperm.symm.eq_nil
    · dsimp only
      rw [if_neg (not_le.mpr (hrisky best
        ((List.mem_insertionSort probLE).mp (List.mem_of_mem_head? (by rw [hh]; rfl)))))]
  refine ⟨hbg, fun hsm => ?_⟩
  unfold getNextMove
  dsimp only
  rw [hsm]
  simp only [List.length_nil]
  rw [if_neg (lt_irrefl 0)]
  exact hbg

/-- C2 counterexample: on the 1×3 grid there is no safe move, probabilities
are nonempty with minimum 1/2 > 1 − safeProbability = 0.2, and covered
cells exist, yet `getNextMove` returns `null` — the claimed fallback to a
confidence-0.5 random reveal does not happen. -/
theorem c2_counterexample :
    findSafeMoves demoTripleGrid = [] ∧
    calculateProbabilities demoTripleGrid =
      [⟨0, 0, 1 / 2⟩, ⟨0, 2, 1 / 2⟩] ∧
    1 - defaultConfig.safeProbability < 1 / 2 ∧
    coveredPositions demoTripleGrid ≠ [] ∧
    findBestGuess defaultConfig demoTripleGrid 0 = none ∧
    getNextMove defaultConfig demoTripleGrid 0 = none := by
  decide

/-- C2 witness: the amended theorem applied to the 1×3 grid. -/
theorem c2_witness : findBestGuess defaultConfig demoTripleGrid 3 = none :=
  (c2_risky_guess_rejected defaultConfig demoTripleGrid 3 rfl (by decide) (by decide)).1

/-- C1 (amended): after more than 5 consecutive no-progress iterations,
the loop scrolls and resets the counter when scrolling is enabled; when
scrolling is disabled it does not stop at that point — it keeps iterating
and executes whatever move the solver returns, stopping only when
additionally no move is available (solved or stuck accordingly). -/
theorem c1_no_progress_recovery (cfg : Config) (g : Grid) (rand : Nat) (s : LoopState)
    (hrev : (getStats g).revealed = s.lastRevealedCount)
    (hiter : 5 ≤ s.iterationsWithoutProgress) :
    (cfg.scrollEnabled = true →
      runStep cfg g rand s = StepOutcome.recoverScroll ⟨0, s.lastRevealedCount⟩) ∧
    (cfg.scrollEnabled = false → ∀ m : Move, getNextMove cfg g rand = some m →
      runStep cfg g rand s =
        StepOutcome.acted m false
          ⟨s.iterationsWithoutProgress + 1, s.lastRevealedCount⟩) ∧
    (cfg.scrollEnabled = false → getNextMove cfg g rand = none →
      runStep cfg g rand s =
        if isSolved g = true then StepOutcome.stopSolved else StepOutcome.stopStuck) := by
  refine ⟨?_, ?_, ?_⟩
  · intro hscroll
    unfold runStep
    dsimp only
    rw [if_pos hrev, if_pos hrev, if_pos ⟨by omega, hscroll⟩]
  · intro hscroll m hm
    unfold runStep
    dsimp only
    rw [if_pos hrev, if_pos hrev, if_neg (by simp [hscroll]), hm]
    dsimp only
    rw [decide_eq_false (by simp [hscroll])]
  · intro hscroll hm
    unfold runStep
    dsimp only
    rw [if_pos hrev, if_pos hrev, if_neg (by simp [hscroll]), hm]
    dsimp only
    by_cases hsol : isSolved g = true
    · rw [if_pos hsol, if_pos hsol, if_neg (by simp [hscroll])]
    · rw [if_neg hsol, if_neg hsol, if_neg (by simp [hscroll])]

/-- C1 counterexample: scrolling disabled, revealed count unchanged, counter
already past the threshold — the loop does not stop; it executes the
solver's Flag move and keeps running. -/
theorem c1_counterexample :
    (getStats demoPairGrid).revealed = 1 ∧
    runStep noScrollConfig demoPairGrid 0 ⟨6, 1⟩ =
      StepOutcome.acted
        ⟨0, 1, MoveAction.flag, 1, "1 covered = 1 remaining mines at (0,0)"⟩
        false ⟨7, 1⟩ ∧
    runStep noScrollConfig demoPairGrid 0 ⟨6, 1⟩ ≠ StepOutcome.stopStuck ∧
    runStep noScrollConfig demoPairGrid 0 ⟨6, 1⟩ ≠ StepOutcome.stopSolved := by
  decide

/-- C1 witness: with scrolling enabled the same stuck state triggers a
recovery scroll with the counter reset. -/
theorem c1_witness :
    runStep defaultConfig demoPairGrid 0 ⟨6, 1⟩ = StepOutcome.recoverScroll ⟨0, 1⟩ :=
  (c1_no_progress_recovery defaultConfig demoPairGrid 0 ⟨6, 1⟩ (by decide)
    (by decide)).1 rfl

end Minesweeper
